import Mathlib

/-!
Verification of the voice-command interpretation core and the webhook
transport of the Philips-Hue control app.

The app's `processVoiceCommand` (smart-controller screen) lowercases and
trims the transcript, then runs three sequential, non-exclusive steps
over mutable `action` / `color` variables:
  1. power:   if the text matches /turn (on|off)/ or /(on|off)/,
              set action to turn_off when the text contains "off",
              else turn_on;
  2. color:   if a lead-in phrase, the word "color", or any color synonym
              occurs — or no action was set — scan the fixed color table
              in insertion order and take the first color one of whose
              synonyms is contained in the text;
  3. brightness: if the text contains bright/dim/brightness, refine by
              level keywords (full/max/maximum/brightest -> 100,
              half/medium/mid -> 50, low/dim/minimum -> 20), overwriting
              the previous action.
`sendCommand` serializes the action (and color/brightness value) as URL
query parameters on the configured webhook URL and issues one HTTP GET;
a non-2xx response is turned into an error carrying the status code.

JavaScript `String.prototype.includes` is modelled by an executable
substring containment over the character list; `toLowerCase` and `trim`
by ASCII per-character lowering and whitespace trimming.
-/

namespace HueApp

/-- Does `pat` occur as a prefi x of `l`? Executable helper for substring
containment. -/
def listStartsWith : List Char → List Char → Bool
  | [], _ => true
  | _ :: _, [] => false
  | a :: as, b :: bs => a == b && listStartsWith as bs

/-- Does `pat` occur as a contiguous run inside `l`?  Models JavaScript
`String.prototype.includes`. -/
def listContains (pat : List Char) : List Char → Bool
  | [] => pat.isEmpty
  | c :: cs => listStartsWith pat (c :: cs) || listContains pat cs

/-- `strContains s pat` models `s.includes(pat)` on JavaScript strings. -/
def strContains (s pat : String) : Bool :=
  listContains pat.data s.data

/-- Drop leading and trailing whitespace, modelling `String.prototype.trim`. -/
def trimChars (l : List Char) : List Char :=
  ((l.dropWhile Char.isWhitespace).reverse.dropWhile Char.isWhitespace).reverse

/-- `text.toLowerCase().trim()` at the top of `processVoiceCommand`
(ASCII model of `toLowerCase`). -/
def normalizeTranscript (text : String) : String :=
  ⟨trimChars (text.data.map Char.toLower)⟩

/-- The fixed color table `COLOR_VARIATIONS` of the smart-controller screen:
canonical color name paired with its synonym list, in insertion order. -/
def COLOR_VARIATIONS : List (String × List String) :=
  [("red", ["red", "crimson", "scarlet"]),
   ("blue", ["blue", "azure", "navy"]),
   ("green", ["green", "emerald", "lime"]),
   ("yellow", ["yellow", "golden", "amber"]),
   ("white", ["white", "bright", "light"]),
   ("black", ["black", "dark", "midnight"]),
   ("purple", ["purple", "violet", "lavender"]),
   ("orange", ["orange", "tangerine"]),
   ("pink", ["pink", "rose", "magenta"])]

/-- The lead-in phrases `colorPhrases` of `processVoiceCommand`. -/
def colorPhrases : List String :=
  ["change to", "switch to", "make it", "set to", "set it to",
   "change the color to", "set the color to", "turn it", "set light to",
   "change light to", "make the light"]

/-- The pair of mutable locals `action` / `color` of `processVoiceCommand`,
after some of its steps have run. -/
structure RawCommand where
  action : String
  param : String
deriving DecidableEq

/-- The condition of the power step:
`command.match(/turn (on|off)/i) || command.match(/(on|off)/i)`. -/
def powerPattern (command : String) : Bool :=
  (strContains command "turn on" || strContains command "turn off")
    || (strContains command "on" || strContains command "off")

/-- The power step: `action = command.includes('off') ? 'turn_off' : 'turn_on'`
when the power pattern matches, else the empty `action`. -/
def powerAction (command : String) : String :=
  if powerPattern command then
    if strContains command "off" then "turn_off" else "turn_on"
  else ""

/-- `hasColorCommand`: a lead-in phrase, the word "color", or any synonym of
any color occurs in the text. -/
def hasColorCommand (command : String) : Bool :=
  colorPhrases.any (fun phrase => strContains command phrase)
    || strContains command "color"
    || ((COLOR_VARIATIONS.map Prod.snd).flatten.any fun c => strContains command c)

/-- The `for (const [baseColor, variations] of Object.entries(COLOR_VARIATIONS))`
loop: first color in table order with a synonym contained in the text. -/
def findColor (command : String) : List (String × List String) → Option String
  | [] => none
  | (baseColor, variations) :: rest =>
    if variations.any fun variant => strContains command variant then
      some baseColor
    else findColor command rest

/-- The color step: when `hasColorCommand || !action`, the first matching
color of the table overwrites `action`/`color`; otherwise the state passes
through unchanged. -/
def colorStep (command : String) (rc : RawCommand) : RawCommand :=
  if hasColorCommand command || rc.action == "" then
    match findColor command COLOR_VARIATIONS with
    | some baseColor => ⟨"set_color", baseColor⟩
    | none => rc
  else rc

/-- `command.match(/(bright|dim|brightness)/i)`. -/
def matchBright (command : String) : Bool :=
  strContains command "bright" || strContains command "dim"
    || strContains command "brightness"

/-- `command.match(/(full|max|maximum|brightest)/i)`. -/
def matchFull (command : String) : Bool :=
  strContains command "full" || strContains command "max"
    || strContains command "maximum" || strContains command "brightest"

/-- `command.match(/(half|medium|mid)/i)`. -/
def matchHalf (command : String) : Bool :=
  strContains command "half" || strContains command "medium"
    || strContains command "mid"

/-- `command.match(/(low|dim|minimum)/i)`. -/
def matchLow (command : String) : Bool :=
  strContains command "low" || strContains command "dim"
    || strContains command "minimum"

/-- The brightness step of `processVoiceCommand`: on a bright/dim/brightness
match, a level keyword overwrites `action`/`color` with `set_brightness`
and the discrete level. -/
def brightStep (command : String) (rc : RawCommand) : RawCommand :=
  if matchBright command then
    if matchFull command then ⟨"set_brightness", "100"⟩
    else if matchHalf command then ⟨"set_brightness", "50"⟩
    else if matchLow command then ⟨"set_brightness", "20"⟩
    else rc
  else rc

/-- Does the brightness step overwrite the current state? -/
def brightOverride (command : String) : Bool :=
  matchBright command && (matchFull command || matchHalf command || matchLow command)

/-- `processVoiceCommand`: normalize, then run the power, color and
brightness steps in order over the mutable `action`/`color` pair. -/
def processVoiceCommand (text : String) : RawCommand :=
  let command := normalizeTranscript text
  brightStep command (colorStep command ⟨powerAction command, ""⟩)

/-- The action vocabulary of the spec's `Command` data model. -/
inductive Action where
  | TurnOn
  | TurnOff
  | SetColor
  | SetBrightness
  | NoCommand
deriving DecidableEq

/-- The spec's `Command`: an action and an optional parameter. -/
structure Command where
  action : Action
  parameter : Option String
deriving DecidableEq

/-- Map the raw `action`/`color` strings to the structured `Command`; the
parameter is attached exactly when `sendCommand` would put it in the
payload (`set_color`/`set_brightness` with a non-empty value). -/
def toCommand (rc : RawCommand) : Command :=
  if rc.action == "turn_on" then ⟨.TurnOn, none⟩
  else if rc.action == "turn_off" then ⟨.TurnOff, none⟩
  else if rc.action == "set_color" then
    ⟨.SetColor, if rc.param == "" then none else some rc.param⟩
  else if rc.action == "set_brightness" then
    ⟨.SetBrightness, if rc.param == "" then none else some rc.param⟩
  else ⟨.NoCommand, none⟩

/-- The spec's `interpret`: `processVoiceCommand` viewed as a total function
into `Command`. -/
def interpret (text : String) : Command :=
  toCommand (processVoiceCommand text)

/-- `webhookUrl.trim()` (same character-level model as `trimChars`). -/
def trimString (s : String) : String :=
  ⟨trimChars s.data⟩

/-- Hexadecimal digit character (uppercase), for percent-encoding. -/
def hexDigit (n : Nat) : Char :=
  if n < 10 then Char.ofNat (48 + n) else Char.ofNat (55 + n)

/-- Characters `URLSearchParams` serialization leaves unencoded. -/
def isUrlSafe (c : Char) : Bool :=
  c.isAlphanum || c == '*' || c == '-' || c == '.' || c == '_'

/-- Percent-encode one character (ASCII model; space becomes a plus sign). -/
def urlEncodeChar (c : Char) : List Char :=
  if isUrlSafe c then [c]
  else if c == ' ' then ['+']
  else ['%', hexDigit (c.toNat / 16), hexDigit (c.toNat % 16)]

/-- `URLSearchParams` encoding of one key or value. -/
def urlEncode (s : String) : String :=
  ⟨(s.data.map urlEncodeChar).flatten⟩

/-- `new URLSearchParams(payload).toString()`. -/
def queryString (pairs : List (String × String)) : String :=
  String.intercalate "&" (pairs.map fun p => urlEncode p.1 ++ "=" ++ urlEncode p.2)

/-- The payload object of `sendCommand`: the `action` key, plus a `color` or
`brightness` key when the action carries a non-empty value. -/
def buildPayload (action value : String) : List (String × String) :=
  if action == "set_color" && value != "" then [("action", action), ("color", value)]
  else if action == "set_brightness" && value != "" then
    [("action", action), ("brightness", value)]
  else [("action", action)]

/-- An outbound HTTP request as `sendCommand` constructs it. -/
structure HttpRequest where
  method : String
  url : String
deriving DecidableEq

/-- The single GET request `sendCommand` issues: the encoded query
parameters appended to the trimmed webhook URL. -/
def sendCommandRequest (webhookUrl action value : String) : HttpRequest :=
  ⟨"GET", trimString webhookUrl ++ "?" ++ queryString (buildPayload action value)⟩

/-- `response.ok` of the Fetch API: status in the inclusive range 200-299. -/
def responseOk (status : Nat) : Bool :=
  200 ≤ status && status ≤ 299

/-- How `sendCommand` settles once the response arrives: a 2xx response
succeeds, any other status is thrown as an error carrying the status code. -/
def sendCommandOutcome (status : Nat) : Except Nat Unit :=
  if responseOk status then Except.ok () else Except.error status

theorem responseOk_iff (status : Nat) :
    responseOk status = true ↔ (200 ≤ status ∧ status ≤ 299) := by
  simp [responseOk]

theorem sendCommandOutcome_ok_iff (status : Nat) :
    sendCommandOutcome status = Except.ok () ↔ (200 ≤ status ∧ status ≤ 299) := by
  rw [← responseOk_iff]
  cases hok : responseOk status <;> simp [sendCommandOutcome, hok]

theorem sendCommandOutcome_error (status : Nat) (h : ¬(200 ≤ status ∧ status ≤ 299)) :
    sendCommandOutcome status = Except.error status := by
  have hok : responseOk status = false := by
    cases hok : responseOk status
    · rfl
    · exact absurd ((responseOk_iff status).mp hok) h
  simp [sendCommandOutcome, hok]

theorem powerAction_cases (command : String) :
    powerAction command = "" ∨ powerAction command = "turn_on" ∨
      powerAction command = "turn_off" := by
  unfold powerAction
  split
  · split
    · exact Or.inr (Or.inr rfl)
    · exact Or.inr (Or.inl rfl)
  · exact Or.inl rfl

theorem findColor_mem (command : String) (table : List (String × List String)) :
    ∀ b : String, findColor command table = some b → b ∈ table.map Prod.fst := by
  induction table with
  | nil => intro b h; simp [findColor] at h
  | cons head rest ih =>
    obtain ⟨name, vs⟩ := head
    intro b h
    rw [findColor] at h
    split at h
    · rw [Option.some_inj] at h
      subst h
      exact List.mem_cons_self _ _
    · exact List.mem_cons_of_mem _ (ih b h)

theorem colorStep_cases (command : String) (rc : RawCommand) :
    colorStep command rc = rc ∨
      ∃ b, findColor command COLOR_VARIATIONS = some b ∧
        colorStep command rc = ⟨"set_color", b⟩ := by
  unfold colorStep
  split
  · cases h : findColor command COLOR_VARIATIONS with
    | none => exact Or.inl rfl
    | some b => exact Or.inr ⟨b, rfl, rfl⟩
  · exact Or.inl rfl

theorem colorStep_none (command : String) (rc : RawCommand)
    (h : findColor command COLOR_VARIATIONS = none) :
    colorStep command rc = rc := by
  unfold colorStep
  split
  · rw [h]
  · rfl

theorem brightStep_cases (command : String) (rc : RawCommand) :
    brightStep command rc = rc ∨
      brightStep command rc = ⟨"set_brightness", "100"⟩ ∨
      brightStep command rc = ⟨"set_brightness", "50"⟩ ∨
      brightStep command rc = ⟨"set_brightness", "20"⟩ := by
  unfold brightStep
  split
  · split
    · exact Or.inr (Or.inl rfl)
    · split
      · exact Or.inr (Or.inr (Or.inl rfl))
      · split
        · exact Or.inr (Or.inr (Or.inr rfl))
        · exact Or.inl rfl
  · exact Or.inl rfl

theorem brightStep_noop (command : String) (rc : RawCommand)
    (h : brightOverride command = false) :
    brightStep command rc = rc := by
  cases hb : matchBright command
  · simp [brightStep, hb]
  · have h2 : (matchFull command || matchHalf command || matchLow command) = false := by
      simpa [brightOverride, hb] using h
    simp only [Bool.or_eq_false_iff] at h2
    obtain ⟨⟨hf, hh⟩, hl⟩ := h2
    simp [brightStep, hb, hf, hh, hl]

theorem brightStep_sb (command : String) (rc : RawCommand)
    (hne : rc.action ≠ "set_brightness")
    (hsb : (brightStep command rc).action = "set_brightness") :
    ((brightStep command rc).param = "100" → matchFull command = true) ∧
    ((brightStep command rc).param = "50" → matchHalf command = true) ∧
    ((brightStep command rc).param = "20" → matchLow command = true) ∧
    ((brightStep command rc).param = "100" ∨ (brightStep command rc).param = "50" ∨
      (brightStep command rc).param = "20") := by
  cases hb : matchBright command
  · rw [show brightStep command rc = rc from by simp [brightStep, hb]] at hsb
    exact absurd hsb hne
  · cases hf : matchFull command
    · cases hh : matchHalf command
      · cases hl : matchLow command
        · rw [show brightStep command rc = rc from by simp [brightStep, hb, hf, hh, hl]] at hsb
          exact absurd hsb hne
        · have hR : brightStep command rc = ⟨"set_brightness", "20"⟩ := by
            simp [brightStep, hb, hf, hh, hl]
          rw [hR]
          exact ⟨fun hc => absurd hc (by decide), fun hc => absurd hc (by decide),
            fun _ => rfl, Or.inr (Or.inr rfl)⟩
      · have hR : brightStep command rc = ⟨"set_brightness", "50"⟩ := by
          simp [brightStep, hb, hf, hh]
        rw [hR]
        exact ⟨fun hc => absurd hc (by decide), fun _ => rfl,
          fun hc => absurd hc (by decide), Or.inr (Or.inl rfl)⟩
    · have hR : brightStep command rc = ⟨"set_brightness", "100"⟩ := by
        simp [brightStep, hb, hf]
      rw [hR]
      exact ⟨fun _ => rfl, fun hc => absurd hc (by decide),
        fun hc => absurd hc (by decide), Or.inl rfl⟩

theorem toCommand_set_color (p : String) :
    toCommand ⟨"set_color", p⟩ = ⟨.SetColor, if p == "" then none else some p⟩ := rfl

theorem toCommand_set_brightness (p : String) :
    toCommand ⟨"set_brightness", p⟩ =
      ⟨.SetBrightness, if p == "" then none else some p⟩ := rfl

theorem toCommand_action_sb (rc : RawCommand)
    (h : (toCommand rc).action = .SetBrightness) : rc.action = "set_brightness" := by
  unfold toCommand at h
  split at h
  · simp at h
  · split at h
    · simp at h
    · split at h
      · simp at h
      · split at h
        · rename_i hguard
          exact beq_iff_eq.mp hguard
        · simp at h

theorem colorStep_power_action_ne_sb (cmd : String) :
    (colorStep cmd ⟨powerAction cmd, ""⟩).action ≠ "set_brightness" := by
  rcases colorStep_cases cmd ⟨powerAction cmd, ""⟩ with h | ⟨b, _, h⟩
  · rw [h]
    rcases powerAction_cases cmd with hp | hp | hp <;> simp [hp]
  · rw [h]
    simp

theorem processVoiceCommand_cases (t : String) :
    processVoiceCommand t = ⟨"", ""⟩ ∨
    processVoiceCommand t = ⟨"turn_on", ""⟩ ∨
    processVoiceCommand t = ⟨"turn_off", ""⟩ ∨
    (∃ b, b ∈ COLOR_VARIATIONS.map Prod.fst ∧
      processVoiceCommand t = ⟨"set_color", b⟩) ∨
    (∃ p, p ∈ (["100", "50", "20"] : List String) ∧
      processVoiceCommand t = ⟨"set_brightness", p⟩) := by
  have hpv : processVoiceCommand t =
      brightStep (normalizeTranscript t)
        (colorStep (normalizeTranscript t)
          ⟨powerAction (normalizeTranscript t), ""⟩) := rfl
  rcases brightStep_cases (normalizeTranscript t)
      (colorStep (normalizeTranscript t)
        ⟨powerAction (normalizeTranscript t), ""⟩) with hb | hb | hb | hb
  · rw [hb] at hpv
    rcases colorStep_cases (normalizeTranscript t)
        ⟨powerAction (normalizeTranscript t), ""⟩ with hc | ⟨b, hfc, hc⟩
    · rw [hc] at hpv
      rcases powerAction_cases (normalizeTranscript t) with hp | hp | hp
      · exact Or.inl (by rw [hpv, hp])
      · exact Or.inr (Or.inl (by rw [hpv, hp]))
      · exact Or.inr (Or.inr (Or.inl (by rw [hpv, hp])))
    · rw [hc] at hpv
      exact Or.inr (Or.inr (Or.inr (Or.inl
        ⟨b, findColor_mem _ COLOR_VARIATIONS b hfc, hpv⟩)))
  · exact Or.inr (Or.inr (Or.inr (Or.inr ⟨"100", by decide, by rw [hpv, hb]⟩)))
  · exact Or.inr (Or.inr (Or.inr (Or.inr ⟨"50", by decide, by rw [hpv, hb]⟩)))
  · exact Or.inr (Or.inr (Or.inr (Or.inr ⟨"20", by decide, by rw [hpv, hb]⟩)))

theorem table_names_ne_empty :
    ∀ x ∈ COLOR_VARIATIONS.map Prod.fst, x ≠ "" := by decide

theorem table_names_distinct :
    ∀ m ∈ List.range COLOR_VARIATIONS.length,
      ∀ j ∈ List.range COLOR_VARIATIONS.length, m ≠ j →
        (COLOR_VARIATIONS.getD m ("", [])).1 ≠ (COLOR_VARIATIONS.getD j ("", [])).1 := by
  decide

theorem names_getD_ne_empty :
    ∀ m ∈ List.range COLOR_VARIATIONS.length,
      (COLOR_VARIATIONS.getD m ("", [])).1 ≠ "" := by decide

theorem findColor_first (cmd : String) (table : List (String × List String)) :
    ∀ k : Nat, k < table.length →
      ((table.getD k ("", [])).2.any fun v => strContains cmd v) = true →
      ∃ m, m ≤ k ∧ m < table.length ∧
        findColor cmd table = some (table.getD m ("", [])).1 := by
  induction table with
  | nil => intro k hk; exact absurd hk (by simp)
  | cons head rest ih =>
    obtain ⟨name, vs⟩ := head
    intro k hk hmatch
    by_cases hh : (vs.any fun v => strContains cmd v) = true
    · refine ⟨0, Nat.zero_le k, by simp, ?_⟩
      rw [findColor, if_pos hh]
      simp
    · cases k with
      | zero =>
        rw [List.getD_cons_zero] at hmatch
        exact absurd hmatch hh
      | succ k =>
        have hk2 : k < rest.length := by simpa using hk
        have hmatch2 : ((rest.getD k ("", [])).2.any fun v => strContains cmd v) = true := by
          simpa using hmatch
        obtain ⟨m, hm1, hm2, hm3⟩ := ih k hk2 hmatch2
        refine ⟨m + 1, by omega, by simp only [List.length_cons]; omega, ?_⟩
        rw [findColor, if_neg hh, List.getD_cons_succ]
        exact hm3

theorem hasColorCommand_of_any (cmd : String) (e : String × List String)
    (he : e ∈ COLOR_VARIATIONS)
    (h : (e.2.any fun v => strContains cmd v) = true) :
    hasColorCommand cmd = true := by
  have hflat : ((COLOR_VARIATIONS.map Prod.snd).flatten.any fun c =>
      strContains cmd c) = true := by
    rw [List.any_eq_true] at h ⊢
    obtain ⟨v, hv, hsv⟩ := h
    exact ⟨v, List.mem_flatten.mpr ⟨e.2, List.mem_map.mpr ⟨e, he, rfl⟩, hv⟩, hsv⟩
  simp [hasColorCommand, hflat]

/-- Pairwise disjointness of the synonym lists of a color table: no word of
one entry occurs in the synonym list of any other entry. -/
def synonymsPairwiseDisjoint : List (String × List String) → Bool
  | [] => true
  | e :: rest =>
    (rest.all fun f => e.2.all fun s => !(f.2.contains s))
      && synonymsPairwiseDisjoint rest

/-- **C1** (counterexample): "turn on the light, not off" matches the power
pattern and contains both "on" and "off", yet `interpret` returns a color
command, not TurnOff — the color step overwrites the power action because
"light" is a synonym of white. -/
theorem c1_counterexample :
    strContains (normalizeTranscript "turn on the light, not off") "on" = true ∧
    strContains (normalizeTranscript "turn on the light, not off") "off" = true ∧
    powerPattern (normalizeTranscript "turn on the light, not off") = true ∧
    interpret "turn on the light, not off" = ⟨.SetColor, some "white"⟩ := by decide

/-- **C1** (amended): for every transcript whose lowercased trimmed text
matches the power pattern, provided no color-table synonym occurs in the
text and the brightness step does not overwrite, `interpret` returns
TurnOff whenever the text contains "off" and TurnOn otherwise; and
`interpret "turn it on, not off"` is TurnOff. -/
theorem c1_power_tiebreak :
    (∀ t, powerPattern (normalizeTranscript t) = true →
      findColor (normalizeTranscript t) COLOR_VARIATIONS = none →
      brightOverride (normalizeTranscript t) = false →
      ((strContains (normalizeTranscript t) "off" = true →
          interpret t = ⟨.TurnOff, none⟩) ∧
        (strContains (normalizeTranscript t) "off" = false →
          interpret t = ⟨.TurnOn, none⟩))) ∧
    interpret "turn it on, not off" = ⟨.TurnOff, none⟩ := by
  constructor
  · intro t hp hfc hbo
    have hpv : processVoiceCommand t =
        brightStep (normalizeTranscript t)
          (colorStep (normalizeTranscript t)
            ⟨powerAction (normalizeTranscript t), ""⟩) := rfl
    constructor
    · intro hoff
      have hpa : powerAction (normalizeTranscript t) = "turn_off" := by
        simp [powerAction, hp, hoff]
      rw [interpret, hpv, hpa, colorStep_none _ _ hfc, brightStep_noop _ _ hbo]
      decide
    · intro hoff
      have hpa : powerAction (normalizeTranscript t) = "turn_on" := by
        simp [powerAction, hp, hoff]
      rw [interpret, hpv, hpa, colorStep_none _ _ hfc, brightStep_noop _ _ hbo]
      decide
  · decide

/-- **C1** (witness): the amended rule applied to "turn me on". -/
theorem c1_witness : interpret "turn me on" = ⟨.TurnOn, none⟩ :=
  (c1_power_tiebreak.1 "turn me on" (by decide) (by decide) (by decide)).2 (by decide)

/-- **C2** (counterexample): "bright red" contains a color word ("red") and
a brightness word ("bright"), yet `interpret` returns the color command:
the brightness block only overwrites when a level keyword also occurs. -/
theorem c2_counterexample :
    strContains (normalizeTranscript "bright red") "red" = true ∧
    strContains (normalizeTranscript "bright red") "bright" = true ∧
    matchBright (normalizeTranscript "bright red") = true ∧
    interpret "bright red" = ⟨.SetColor, some "red"⟩ := by decide

/-- **C2** (amended): a transcript containing a color synonym and a
brightness word resolves to SetBrightness provided a brightness level
keyword (full/max/maximum/brightest/half/medium/mid/low/dim/minimum)
also occurs; the brightness check runs last and overwrites. -/
theorem c2_brightness_override :
    ∀ t, ((COLOR_VARIATIONS.map Prod.snd).flatten.any fun c =>
        strContains (normalizeTranscript t) c) = true →
      matchBright (normalizeTranscript t) = true →
      (matchFull (normalizeTranscript t) || matchHalf (normalizeTranscript t)
        || matchLow (normalizeTranscript t)) = true →
      (interpret t).action = .SetBrightness := by
  intro t _ hmb hlvl
  have hpv : processVoiceCommand t =
      brightStep (normalizeTranscript t)
        (colorStep (normalizeTranscript t)
          ⟨powerAction (normalizeTranscript t), ""⟩) := rfl
  have hex : ∃ p, brightStep (normalizeTranscript t)
      (colorStep (normalizeTranscript t)
        ⟨powerAction (normalizeTranscript t), ""⟩) = ⟨"set_brightness", p⟩ := by
    cases hf : matchFull (normalizeTranscript t)
    · cases hh : matchHalf (normalizeTranscript t)
      · cases hl : matchLow (normalizeTranscript t)
        · rw [hf, hh, hl] at hlvl
          simp at hlvl
        · exact ⟨"20", by simp [brightStep, hmb, hf, hh, hl]⟩
      · exact ⟨"50", by simp [brightStep, hmb, hf, hh]⟩
    · exact ⟨"100", by simp [brightStep, hmb, hf]⟩
  obtain ⟨p, hbs⟩ := hex
  rw [interpret, hpv, hbs, toCommand_set_brightness]

/-- **C2** (witness): "dim red" has a color word, a brightness word and a
level keyword, and resolves to SetBrightness. -/
theorem c2_witness : (interpret "dim red").action = .SetBrightness :=
  c2_brightness_override "dim red" (by decide) (by decide) (by decide)

/-- **C3**: for every canonical color in the fixed table and every synonym
of it, `interpret ("make it " ++ synonym)` is SetColor with the color's
canonical name. -/
theorem c3_synonym_table :
    ∀ e ∈ COLOR_VARIATIONS, ∀ s ∈ e.2,
      interpret ("make it " ++ s) = ⟨.SetColor, some e.1⟩ := by decide

/-- **C3** (witness): the synonym "crimson" of the entry for red. -/
theorem c3_witness : interpret "make it crimson" = ⟨.SetColor, some "red"⟩ :=
  c3_synonym_table ("red", ["red", "crimson", "scarlet"]) (by decide)
    "crimson" (by decide)

/-- **C4**: whenever `interpret` returns SetBrightness, the parameter is one
of "100"/"50"/"20", chosen by the keyword classes (full/max/maximum/
brightest, half/medium/mid, low/dim/minimum respectively); and
`interpret "set brightness to max"` is SetBrightness "100". -/
theorem c4_brightness_levels :
    (∀ t, (interpret t).action = .SetBrightness →
      ((interpret t).parameter = some "100" ∨ (interpret t).parameter = some "50" ∨
        (interpret t).parameter = some "20") ∧
      ((interpret t).parameter = some "100" → matchFull (normalizeTranscript t) = true) ∧
      ((interpret t).parameter = some "50" → matchHalf (normalizeTranscript t) = true) ∧
      ((interpret t).parameter = some "20" → matchLow (normalizeTranscript t) = true)) ∧
    interpret "set brightness to max" = ⟨.SetBrightness, some "100"⟩ := by
  constructor
  · intro t hact
    have hsb : (processVoiceCommand t).action = "set_brightness" :=
      toCommand_action_sb _ hact
    have hpv : processVoiceCommand t =
        brightStep (normalizeTranscript t)
          (colorStep (normalizeTranscript t)
            ⟨powerAction (normalizeTranscript t), ""⟩) := rfl
    have hkw := brightStep_sb (normalizeTranscript t)
      (colorStep (normalizeTranscript t) ⟨powerAction (normalizeTranscript t), ""⟩)
      (colorStep_power_action_ne_sb (normalizeTranscript t)) (by rw [← hpv]; exact hsb)
    rw [← hpv] at hkw
    obtain ⟨h100, h50, h20, hmem⟩ := hkw
    have hrc : processVoiceCommand t =
        ⟨"set_brightness", (processVoiceCommand t).param⟩ := by
      rw [← hsb]
    have hpne : ((processVoiceCommand t).param == "") = false := by
      rcases hmem with hm | hm | hm <;> rw [hm] <;> decide
    have hI : interpret t = ⟨.SetBrightness, some (processVoiceCommand t).param⟩ := by
      rw [interpret, hrc, toCommand_set_brightness, hpne]
      simp
    rw [hI]
    refine ⟨?_, ?_, ?_, ?_⟩
    · rcases hmem with hm | hm | hm
      · exact Or.inl (by rw [hm])
      · exact Or.inr (Or.inl (by rw [hm]))
      · exact Or.inr (Or.inr (by rw [hm]))
    · intro hx
      exact h100 (Option.some.inj hx)
    · intro hx
      exact h50 (Option.some.inj hx)
    · intro hx
      exact h20 (Option.some.inj hx)
  · decide

/-- **C4** (witness): the universal part applied to "set brightness to max". -/
theorem c4_witness :
    (interpret "set brightness to max").parameter = some "100" ∨
    (interpret "set brightness to max").parameter = some "50" ∨
    (interpret "set brightness to max").parameter = some "20" :=
  (c4_brightness_levels.1 "set brightness to max" (by decide)).1

/-- **C5** (counterexample): "dim red blue" contains synonyms of two
different colors (red, earlier in the table, and blue), but `interpret`
returns the brightness command, not SetColor red: the brightness step
overwrites the color match. -/
theorem c5_counterexample :
    strContains (normalizeTranscript "dim red blue") "red" = true ∧
    strContains (normalizeTranscript "dim red blue") "blue" = true ∧
    interpret "dim red blue" = ⟨.SetBrightness, some "20"⟩ ∧
    (interpret "dim red blue").action ≠ .SetColor := by decide

/-- **C5** (amended): for a transcript containing synonyms of two colors at
table positions i < j, provided the brightness step does not overwrite,
`interpret` returns SetColor with the first matching color in table order
— in particular never the later color j. -/
theorem c5_first_color_wins (t : String) (i j : Nat) (hij : i < j)
    (hj : j < COLOR_VARIATIONS.length)
    (hi_match : ((COLOR_VARIATIONS.getD i ("", [])).2.any fun v =>
      strContains (normalizeTranscript t) v) = true)
    (_hj_match : ((COLOR_VARIATIONS.getD j ("", [])).2.any fun v =>
      strContains (normalizeTranscript t) v) = true)
    (hno : brightOverride (normalizeTranscript t) = false) :
    interpret t = ⟨.SetColor, findColor (normalizeTranscript t) COLOR_VARIATIONS⟩ ∧
      findColor (normalizeTranscript t) COLOR_VARIATIONS ≠
        some (COLOR_VARIATIONS.getD j ("", [])).1 := by
  have hi : i < COLOR_VARIATIONS.length := Nat.lt_trans hij hj
  obtain ⟨m, hmk, hmlen, hfc⟩ :=
    findColor_first (normalizeTranscript t) COLOR_VARIATIONS i hi hi_match
  have hmem : COLOR_VARIATIONS.getD i ("", []) ∈ COLOR_VARIATIONS := by
    rw [List.getD_eq_getElem _ _ hi]
    exact List.getElem_mem hi
  have hcc : hasColorCommand (normalizeTranscript t) = true :=
    hasColorCommand_of_any _ _ hmem hi_match
  have hcs : colorStep (normalizeTranscript t)
      ⟨powerAction (normalizeTranscript t), ""⟩ =
      ⟨"set_color", (COLOR_VARIATIONS.getD m ("", [])).1⟩ := by
    simp [colorStep, hcc, hfc]
  have hpv : processVoiceCommand t =
      ⟨"set_color", (COLOR_VARIATIONS.getD m ("", [])).1⟩ := by
    show brightStep (normalizeTranscript t)
      (colorStep (normalizeTranscript t)
        ⟨powerAction (normalizeTranscript t), ""⟩) = _
    rw [hcs, brightStep_noop _ _ hno]
  have hne : (COLOR_VARIATIONS.getD m ("", [])).1 ≠ "" :=
    names_getD_ne_empty m (List.mem_range.mpr hmlen)
  constructor
  · rw [interpret, hpv, toCommand_set_color, hfc]
    have hb : ((COLOR_VARIATIONS.getD m ("", [])).1 == "") = false :=
      beq_eq_false_iff_ne.mpr hne
    rw [hb]
    simp
  · rw [hfc]
    intro hcon
    rw [Option.some_inj] at hcon
    exact table_names_distinct m (List.mem_range.mpr hmlen) j (List.mem_range.mpr hj)
      (by omega) hcon

/-- **C5** (witness): "red blue" resolves to red, the earlier color. -/
theorem c5_witness : interpret "red blue" = ⟨.SetColor, some "red"⟩ := by
  have h := c5_first_color_wins "red blue" 0 1 (by decide) (by decide)
    (by decide) (by decide) (by decide)
  rw [h.1, show findColor (normalizeTranscript "red blue") COLOR_VARIATIONS =
    some "red" from by decide]

/-- **C6**: `interpret` is total by construction; the empty string and
"banana" yield no command, and in general a transcript matching no power
pattern, no color synonym and no brightness pattern yields action None
with no parameter. -/
theorem c6_total_unrecognized :
    interpret "" = ⟨.NoCommand, none⟩ ∧ interpret "banana" = ⟨.NoCommand, none⟩ ∧
    ∀ t, powerPattern (normalizeTranscript t) = false →
      findColor (normalizeTranscript t) COLOR_VARIATIONS = none →
      matchBright (normalizeTranscript t) = false →
      interpret t = ⟨.NoCommand, none⟩ := by
  refine ⟨by decide, by decide, ?_⟩
  intro t hp hfc hmb
  have hpa : powerAction (normalizeTranscript t) = "" := by
    simp [powerAction, hp]
  have hpv : processVoiceCommand t =
      brightStep (normalizeTranscript t)
        (colorStep (normalizeTranscript t)
          ⟨powerAction (normalizeTranscript t), ""⟩) := rfl
  rw [interpret, hpv, hpa, colorStep_none _ _ hfc,
    show brightStep (normalizeTranscript t) ⟨"", ""⟩ = ⟨"", ""⟩ from by
      simp [brightStep, hmb]]
  decide

/-- **C6** (witness): the general no-match rule applied to "banana". -/
theorem c6_witness : interpret "banana" = ⟨.NoCommand, none⟩ :=
  c6_total_unrecognized.2.2 "banana" (by decide) (by decide) (by decide)

/-- **C7**: for every input, the interpreted command carries a parameter
exactly when its action is SetColor or SetBrightness. -/
theorem c7_parameter_iff (t : String) :
    (interpret t).parameter.isSome = true ↔
      ((interpret t).action = .SetColor ∨ (interpret t).action = .SetBrightness) := by
  rcases processVoiceCommand_cases t with h | h | h | ⟨b, hb, h⟩ | ⟨p, hp, h⟩
  · rw [interpret, h]
    decide
  · rw [interpret, h]
    decide
  · rw [interpret, h]
    decide
  · rw [interpret, h, toCommand_set_color]
    have hne : (b == "") = false :=
      beq_eq_false_iff_ne.mpr (table_names_ne_empty b hb)
    rw [hne]
    simp
  · rw [interpret, h, toCommand_set_brightness]
    have hne : (p == "") = false := by
      fin_cases hp <;> decide
    rw [hne]
    simp

/-- **C7** (witness): "change to blue" yields SetColor and has a parameter. -/
theorem c7_witness : (interpret "change to blue").parameter.isSome = true :=
  (c7_parameter_iff "change to blue").mpr (Or.inl (by decide))

/-- **C8**: in the fixed color table, the synonym lists of distinct
canonical colors are pairwise disjoint. -/
theorem c8_synonyms_disjoint :
    synonymsPairwiseDisjoint COLOR_VARIATIONS = true := by decide

/-- **C9**: the transport builds a single GET request whose URL is the
trimmed caller-supplied base followed by the URL-encoded query parameters,
succeeds exactly on a 2xx status, and any non-2xx status surfaces as an
error carrying that status code. -/
theorem c9_transport (base action value : String) (status : Nat) :
    (sendCommandRequest base action value).method = "GET" ∧
    (sendCommandRequest base action value).url =
      trimString base ++ "?" ++ queryString (buildPayload action value) ∧
    (sendCommandOutcome status = Except.ok () ↔ (200 ≤ status ∧ status ≤ 299)) ∧
    (¬(200 ≤ status ∧ status ≤ 299) →
      sendCommandOutcome status = Except.error status) :=
  ⟨rfl, rfl, sendCommandOutcome_ok_iff status,
    fun h => sendCommandOutcome_error status h⟩

/-- **C9** (witness): a 404 response surfaces as an error carrying 404. -/
theorem c9_witness : sendCommandOutcome 404 = Except.error 404 :=
  (c9_transport "https://example.com/hook" "turn_on" "" 404).2.2.2 (by decide)

/-- **C10**: "on" matches as an arbitrary substring: a transcript containing
"on" inside an unrelated word, with no "off", no lead-in phrase, no
literal "color", no color synonym and no brightness word, interprets as
TurnOn. -/
theorem c10_substring_power (t : String)
    (hon : strContains (normalizeTranscript t) "on" = true)
    (hoff : strContains (normalizeTranscript t) "off" = false)
    (hphr : (colorPhrases.any fun phrase =>
      strContains (normalizeTranscript t) phrase) = false)
    (hcolor : strContains (normalizeTranscript t) "color" = false)
    (hsyn : ((COLOR_VARIATIONS.map Prod.snd).flatten.any fun c =>
      strContains (normalizeTranscript t) c) = false)
    (hbr : strContains (normalizeTranscript t) "bright" = false)
    (hdim : strContains (normalizeTranscript t) "dim" = false)
    (hbrn : strContains (normalizeTranscript t) "brightness" = false) :
    interpret t = ⟨.TurnOn, none⟩ := by
  have hpa : powerAction (normalizeTranscript t) = "turn_on" := by
    simp [powerAction, powerPattern, hon, hoff]
  have hcc : hasColorCommand (normalizeTranscript t) = false := by
    simp [hasColorCommand, hphr, hcolor, hsyn]
  have hcs : colorStep (normalizeTranscript t) ⟨"turn_on", ""⟩ = ⟨"turn_on", ""⟩ := by
    simp [colorStep, hcc]
  have hmb : matchBright (normalizeTranscript t) = false := by
    simp [matchBright, hbr, hdim, hbrn]
  have hpv : processVoiceCommand t =
      brightStep (normalizeTranscript t)
        (colorStep (normalizeTranscript t)
          ⟨powerAction (normalizeTranscript t), ""⟩) := rfl
  rw [interpret, hpv, hpa, hcs,
    show brightStep (normalizeTranscript t) ⟨"turn_on", ""⟩ = ⟨"turn_on", ""⟩ from by
      simp [brightStep, hmb]]
  decide

/-- **C10** (witness): "salmon" contains "on" inside an unrelated word and
interprets as TurnOn. -/
theorem c10_witness : interpret "salmon" = ⟨.TurnOn, none⟩ :=
  c10_substring_power "salmon" (by decide) (by decide) (by decide) (by decide)
    (by decide) (by decide) (by decide) (by decide)

end HueApp
